import Mathlib

/-!
Shallow embedding of the reactive view layer of the husky key-value store
library, together with proofs about its stage operators, synchronizer
accounting, materialization, and auxiliary data structures.

Stores are modelled as functions from keys to optional values (for the
write path) and as key-sorted association lists (for the ordered read
path of the in-memory `Loaded` store).  Machine counters (`u32`) are
modelled as naturals reduced modulo `2 ^ 32` where the source loads or
stores them.
-/

set_option autoImplicit false

universe u v

/-- An event broadcast on a stage's bus, mirroring `traits/watch.rs`:
either an insertion of a key-value pair or a removal of a key. -/
inductive Event (K : Type u) (V : Type v) where
  | insert (key : K) (value : V)
  | remove (key : K)
deriving DecidableEq, Repr

/-- Functional store update: the result of an insert on a keyed store,
mirroring a point write on the underlying map. -/
def storeInsert {K : Type u} {V : Type v} [DecidableEq K]
    (s : K → Option V) (k : K) (v : V) : K → Option V :=
  fun q => if q = k then some v else s q

/-- Functional store removal. -/
def storeRemove {K : Type u} {V : Type v} [DecidableEq K]
    (s : K → Option V) (k : K) : K → Option V :=
  fun q => if q = k then none else s q

/-- `Chain::get_ref` from `ops/chain.rs`: return `a`'s value when present,
otherwise fall through to `b`. -/
def chainGetRef {K : Type u} {V : Type v} (a b : K → Option V) (k : K) : Option V :=
  match a k with
  | some v => some v
  | none => b k

/-- The watcher closure `Chain::new` installs on events arriving from the
first view `a` (`ops/chain.rs` lines 75-94): an insert passes through
unchanged; a removal is replaced by an insert of `b`'s current value when
`b` holds the key, otherwise it stays a removal. -/
def chainWatchA {K : Type u} {V : Type v} (b : K → Option V) :
    Event K V → Event K V
  | .insert k v => .insert k v
  | .remove k =>
    match b k with
    | some v => .insert k v
    | none => .remove k

/-- The watcher closure `Chain::new` installs on events arriving from the
second view `b` (`ops/chain.rs` lines 95-114): an insert passes through
unchanged; a removal is replaced by an insert of `a`'s current value when
`a` holds the key, otherwise it stays a removal. -/
def chainWatchB {K : Type u} {V : Type v} (a : K → Option V) :
    Event K V → Event K V
  | .insert k v => .insert k v
  | .remove k =>
    match a k with
    | some v => .insert k v
    | none => .remove k

/-- State of a base `Tree` (`wrappers/tree.rs`): its key-value contents,
the `outgoing` counter of its synchronizer, and the log of events sent on
its bus (as observed by a subscriber that exists throughout). -/
structure BaseTree (K : Type u) (V : Type v) where
  store : K → Option V
  outgoing : Nat
  events : List (Event K V)

/-- `Tree::insert_owned` (`wrappers/tree.rs` lines 77-90): bump the
synchronizer's `outgoing` counter, write the pair, and broadcast an
`Insert` event on the tree's bus. -/
def treeInsertOwned {K : Type u} {V : Type v} [DecidableEq K]
    (t : BaseTree K V) (k : K) (v : V) : BaseTree K V :=
  { store := storeInsert t.store k v
    outgoing := (t.outgoing + 1) % 2 ^ 32
    events := t.events ++ [Event.insert k v] }

/-- `Tree::remove_owned` (`wrappers/tree.rs` lines 116-125): bump
`outgoing`, broadcast a `Remove` event, and delete the key. -/
def treeRemoveOwned {K : Type u} {V : Type v} [DecidableEq K]
    (t : BaseTree K V) (k : K) : BaseTree K V :=
  { store := storeRemove t.store k
    outgoing := (t.outgoing + 1) % 2 ^ 32
    events := t.events ++ [Event.remove k] }

/-- `Tree::fetch_and_update` (`wrappers/tree.rs` lines 152-167): apply `f`
to the current value and write back the result (removing on `none`).  The
source method neither touches the synchronizer nor sends on the bus. -/
def treeFetchAndUpdate {K : Type u} {V : Type v} [DecidableEq K]
    (t : BaseTree K V) (k : K) (f : Option V → Option V) : BaseTree K V :=
  match f (t.store k) with
  | some v => { t with store := storeInsert t.store k v }
  | none => { t with store := storeRemove t.store k }

/-- `Reducer::insert_ref` (`ops/reducer.rs` lines 109-118): delegate to the
upstream store's `fetch_and_update`, replacing the old value `old` with
`r old m`. -/
def reducerInsert {K : Type u} {V : Type v} {M : Type v} [DecidableEq K]
    (r : Option V → M → V) (t : BaseTree K V) (k : K) (m : M) : BaseTree K V :=
  treeFetchAndUpdate t k (fun old => some (r old m))

/-- A synchronizer (`threads.rs`): a list of upstream synchronizers plus
the `received` and `outgoing` counters (32-bit in the source; modelled as
naturals already reduced modulo `2 ^ 32`). -/
inductive Synchro : Type where
  | mk (source : List Synchro) (received : Nat) (outgoing : Nat)

/-- The upstream list of a synchronizer. -/
def Synchro.sources : Synchro → List Synchro
  | .mk s _ _ => s

/-- The `received` counter of a synchronizer. -/
def Synchro.received : Synchro → Nat
  | .mk _ r _ => r

/-- The `outgoing` counter of a synchronizer. -/
def Synchro.outgoing : Synchro → Nat
  | .mk _ _ o => o

/-- `Synchronizer::incoming` (`threads.rs` lines 113-119): the sum of the
upstream `outgoing` counters, as a 32-bit value. -/
def incomingOf (src : List Synchro) : Nat :=
  (src.map Synchro.outgoing).sum % 2 ^ 32

mutual
/-- `Synchronizer::is_sync` (`threads.rs` lines 120-126): `received`
equals the sum of upstream `outgoing` counters and every upstream
synchronizer is itself sync. -/
def isSync : Synchro → Bool
  | .mk src r _ => (r == incomingOf src) && allSync src
/-- The `iter().all(|s| s.is_sync())` part of `Synchronizer::is_sync`. -/
def allSync : List Synchro → Bool
  | [] => true
  | s :: rest => isSync s && allSync rest
end

/-- `Synchronizer::from` (`threads.rs` lines 97-105): attach to the given
upstream synchronizers, bootstrapping `received` to the sum of their
`outgoing` counters and `outgoing` to zero.  The source function does not
push the new synchronizer onto the global `SYNCS` registry. -/
def synchroFrom (source : List Synchro) : Synchro :=
  .mk source (incomingOf source) 0

/-- `Synchronizer::new` (`threads.rs` lines 92-96): a default synchronizer
(no sources, zero counters), pushed onto the global `SYNCS` registry that
`wait_all` iterates.  The registry is threaded explicitly. -/
def synchroNew (regs : List Synchro) : List Synchro × Synchro :=
  (regs ++ [Synchro.mk [] 0 0], Synchro.mk [] 0 0)

/-- Construction of a derived stage's synchronizer together with its
effect on the global registry: `Synchronizer::from` leaves `SYNCS`
untouched. -/
def synchroFromReg (regs : List Synchro) (source : List Synchro) :
    List Synchro × Synchro :=
  (regs, synchroFrom source)

/-- `Synchronizer::reset` (`threads.rs` lines 109-112): set `received` to
the current sum of upstream `outgoing` counters. -/
def synchroReset (s : Synchro) : Synchro :=
  .mk s.sources (incomingOf s.sources) s.outgoing

/-- The synchronizer effect of `Material::rebuild`
(`structs/material.rs` lines 71-83): `self.sync.reset()` followed by
`from.sync().reset()` for each source of the material's synchronizer.
Upstream synchronizers deeper than the immediate source are untouched. -/
def materialRebuildSync (m : Synchro) : Synchro :=
  .mk (m.sources.map synchroReset) (incomingOf m.sources) m.outgoing

/-- The store effect of `Material::rebuild`: clear the inner store, then
insert every pair yielded by iterating the source view, in order. -/
def storeOfEntries {K : Type u} {V : Type v} [DecidableEq K]
    (entries : List (K × V)) : K → Option V :=
  entries.foldl (fun s e => storeInsert s e.1 e.2) (fun _ => none)

/-- Last-wins association lookup: the value of the last entry for `k` in
the list, the contents a store holds after inserting the entries in
order. -/
def lookupLast {K : Type u} {V : Type v} [DecidableEq K] :
    List (K × V) → K → Option V
  | [], _ => none
  | e :: rest, k =>
    match lookupLast rest k with
    | some v => some v
    | none => if e.1 = k then some e.2 else none

/-- The lower bound of `size_hint` for Rust's `Iterator::filter_map`
adapter, which `Filter::iter` wraps around the upstream iterator: the
standard library always reports a lower bound of `0`, because the closure
may reject every item. -/
def filterMapSizeHintLower (_baseLower : Nat) : Nat := 0

/-- `Filter::is_empty` (`ops/filter.rs` lines 198-203): report empty when
the upstream is empty, and otherwise test whether the lower `size_hint`
bound of the filtered iterator is zero.  The upstream view is given by its
entry list; `p` is the filter predicate (consulted by `iter` but not by
the size hint). -/
def filterIsEmpty {K : Type u} {V : Type v}
    (entries : List (K × V)) (_p : K → V → Bool) : Bool :=
  if entries.isEmpty then true
  else filterMapSizeHintLower entries.length == 0

/-- The stable slot vector (`structs/stable_vec.rs`): a value vector and
an occupancy bitmap.  A slot index is *live* when its occupancy bit is
set. -/
structure StableVec (T : Type u) where
  vec : List T
  used : List Bool
deriving DecidableEq, Repr

/-- The live occupant of slot `i`: the vector element at `i` when the
occupancy bit at `i` is set. -/
def StableVec.liveAt {T : Type u} (sv : StableVec T) (i : Nat) : Option T :=
  if sv.used.getD i false then sv.vec[i]? else none

/-- `StableVec::push` (`structs/stable_vec.rs` lines 31-46): overwrite the
first vacant slot in place (`self.vec[index] = item`), or append a new
slot; return the slot position. -/
def StableVec.push {T : Type u} (sv : StableVec T) (item : T) :
    StableVec T × Nat :=
  match sv.used.findIdx? (fun b => !b) with
  | some index => ({ vec := sv.vec.set index item, used := sv.used.set index true }, index)
  | none => ({ vec := sv.vec ++ [item], used := sv.used ++ [true] }, sv.vec.length)

/-- `StableVec::remove` (`structs/stable_vec.rs` lines 87-89): clear the
occupancy bit; the value vector is untouched. -/
def StableVec.removeAt {T : Type u} (sv : StableVec T) (index : Nat) :
    StableVec T :=
  { sv with used := sv.used.set index false }

/-- The first loop of `StableVec::extend` (`structs/stable_vec.rs` lines
67-75): walk the precomputed list of free slot indices while items remain;
for each, set the occupancy bit and call `Vec::insert(idx, item)` — which
shifts the elements at and after `idx` to the right — and record the
index.  Returns the updated vector, bitmap, recorded indices and the
unconsumed items. -/
def extendFree {T : Type u} :
    List Nat → List T → List T → List Bool → List Nat →
    List T × List Bool × List Nat × List T
  | idx :: restFree, item :: restItems, vec, used, acc =>
    extendFree restFree restItems (vec.insertIdx idx item) (used.set idx true)
      (acc ++ [idx])
  | _, items, vec, used, acc => (vec, used, acc, items)

/-- `StableVec::extend` (`structs/stable_vec.rs` lines 47-86): collect the
free slot indices, fill them from the iterator via `Vec::insert`, then
append the remaining items; return the positions assigned in consumption
order. -/
def StableVec.extend {T : Type u} (sv : StableVec T) (items : List T) :
    StableVec T × List Nat :=
  let free := (sv.used.enum.filter (fun p => !p.2)).map (fun p => p.1)
  let r := extendFree free items sv.vec sv.used []
  let fin := r.2.2.2.foldl
    (fun (st : List T × List Bool × List Nat) item =>
      (st.1 ++ [item], st.2.1 ++ [true], st.2.2 ++ [st.1.length]))
    (r.1, r.2.1, r.2.2.1)
  ({ vec := fin.1, used := fin.2.1 }, fin.2.2)

/-- `Loaded::get_gt_ref` (`traits/load.rs` lines 67-71): on the in-memory
`BTreeMap`, `range(key..).next()` — the first entry of the map whose key
is greater than **or equal to** `k`.  The map is given as its key-sorted
entry list. -/
def loadedGetGt {K : Type u} {V : Type v} [LinearOrder K]
    (entries : List (K × V)) (k : K) : Option (K × V) :=
  entries.find? (fun e => decide (k ≤ e.1))

/-- `Loaded::get_lt_ref` (`traits/load.rs` lines 62-66):
`range(..key).next_back()` — the last entry whose key is strictly less
than `k`. -/
def loadedGetLt {K : Type u} {V : Type v} [LinearOrder K]
    (entries : List (K × V)) (k : K) : Option (K × V) :=
  (entries.filter (fun e => decide (e.1 < k))).getLast?

/-- `Tree::get_gt_ref` (`wrappers/tree.rs` lines 183-190) delegates to the
underlying KV engine's `get_gt`, documented as returning the first entry
whose key is **strictly** greater than the argument; key serialization is
order-preserving (big-endian), so on the decoded entry list this is the
first entry with key `> k`. -/
def treeGetGt {K : Type u} {V : Type v} [LinearOrder K]
    (entries : List (K × V)) (k : K) : Option (K × V) :=
  entries.find? (fun e => decide (k < e.1))

/-- A base tree over naturals that is initially empty, with zero counters
and an empty event log. -/
def treeEx : BaseTree Nat Nat :=
  { store := fun _ => none, outgoing := 0, events := [] }

/-- The additive reducer of the specification's scenario:
`|old, m| old.unwrap_or(0) + m`. -/
def rAdd : Option Nat → Nat → Nat :=
  fun old m => old.getD 0 + m

/-- A concrete first view for the chain watcher: holds key `0` with
value `1`. -/
def aEx : Nat → Option Nat :=
  fun k => if k = 0 then some 1 else none

/-- A concrete second view for the chain watcher: holds key `0` with
value `7`. -/
def bEx : Nat → Option Nat :=
  fun k => if k = 0 then some 7 else none

/-- A stable slot vector reached by `push 10; push 20; remove 0`: values
`[10, 20]`, with slot `0` vacated and slot `1` live holding `20`. -/
def svEx : StableVec Nat :=
  { vec := [10, 20], used := [false, true] }

/-- A base tree's synchronizer after five writes that nobody subscribed
to: no sources, `received = 0`, `outgoing = 5`. -/
def t0Sync : Synchro := .mk [] 0 5

/-- A derived stage's synchronizer built over `t0Sync` before those five
writes: lagging, since its `received` stayed `0`. -/
def s1Sync : Synchro := .mk [t0Sync] 0 0

/-- A second-level stage over `s1Sync`; locally even but with a lagging
upstream. -/
def s2Sync : Synchro := .mk [s1Sync] 0 0

/-- The synchronizer of a material whose source is `s2Sync`. -/
def mSyncEx : Synchro := .mk [s2Sync] 0 0

/-- The key-sorted entry list of a store holding `1 ↦ 10` and `2 ↦ 20`. -/
def gtEntriesEx : List (Nat × Nat) := [(1, 10), (2, 20)]

theorem allSync_eq_all (l : List Synchro) : allSync l = l.all isSync := by
  induction l with
  | nil => rfl
  | cons s rest ih => simp [allSync, List.all_cons, ih]

theorem reducerInsert_store_foldl {K : Type u} {V M : Type v} [DecidableEq K]
    (r : Option V → M → V) (k : K) (ms : List M) (t : BaseTree K V) :
    (ms.foldl (fun acc m => reducerInsert r acc k m) t).store k
      = ms.foldl (fun acc m => some (r acc m)) (t.store k) := by
  induction ms generalizing t with
  | nil => rfl
  | cons m rest ih =>
    rw [List.foldl_cons, List.foldl_cons, ih]
    congr 1
    simp [reducerInsert, treeFetchAndUpdate, storeInsert]

/-- Claim C1: starting from a key `k` that is absent in the base tree, a
sequence of sequential `Reducer::insert(k, m₁), …, insert(k, mₙ)` calls
leaves the tree's value at `k` equal to the left fold
`r(…r(r(None, m₁), m₂)…, mₙ)`, and each such insert is exactly one
`fetch_and_update` on the upstream store replacing the old value `v` with
`r(v, m)`. -/
theorem reducer_sequence_folds {K : Type u} {V M : Type v} [DecidableEq K]
    (r : Option V → M → V) (k : K) (ms : List M) (t : BaseTree K V)
    (h : t.store k = none) :
    (ms.foldl (fun acc m => reducerInsert r acc k m) t).store k
      = ms.foldl (fun acc m => some (r acc m)) none
    ∧ ∀ (t' : BaseTree K V) (m : M),
        reducerInsert r t' k m
          = treeFetchAndUpdate t' k (fun old => some (r old m)) := by
  constructor
  · rw [reducerInsert_store_foldl, h]
  · intro t' m
    rfl

/-- Witness for C1, the specification's own scenario: inserting `10` then
`5` through the additive reducer on an empty tree leaves `15` at the
key. -/
theorem reducer_sequence_folds_witness :
    (([10, 5] : List Nat).foldl (fun acc m => reducerInsert rAdd acc 0 m)
      treeEx).store 0 = some 15 := by
  rw [(reducer_sequence_folds rAdd 0 [10, 5] treeEx rfl).1]
  rfl

/-- Claim C2, evaluated at the failing input: an insert through a
`Reducer` over a base tree reaches the tree as `fetch_and_update`, which
broadcasts nothing on the tree's bus and leaves the outgoing counter
untouched, whereas a direct insert broadcasts the `Insert` event. -/
theorem reducer_insert_broadcasts_nothing :
    (reducerInsert rAdd treeEx 0 5).events = []
    ∧ (reducerInsert rAdd treeEx 0 5).outgoing = 0
    ∧ (treeInsertOwned treeEx 0 5).events = [Event.insert 0 5]
    ∧ (treeInsertOwned treeEx 0 5).outgoing = 1 := by
  exact ⟨rfl, rfl, rfl, rfl⟩

/-- Claim C3: for a chain of views `a` and `b`, `get` returns `a`'s
answer when present and otherwise `b`'s — `Chain.get(k) = a(k).or(b(k))`;
in particular, after inserting into `b` only (with `a` lacking `k`) the
chain returns `b`'s value, and after a subsequent insert of `k` into `a`
it returns `a`'s value. -/
theorem chain_get_prefers_first {K : Type u} {V : Type v} [DecidableEq K]
    (a b : K → Option V) (k : K) (v w : V) (ha : a k = none) :
    chainGetRef a b k = (a k).or (b k)
    ∧ chainGetRef a (storeInsert b k v) k = some v
    ∧ chainGetRef (storeInsert a k w) (storeInsert b k v) k = some w := by
  refine ⟨?_, ?_, ?_⟩
  · cases h : a k <;> simp [chainGetRef, h, Option.or]
  · simp [chainGetRef, ha, storeInsert]
  · simp [chainGetRef, storeInsert]

/-- Witness for C3: on concrete stores, inserting `3` for key `0` into
the second view only makes the chain return `3`, and a subsequent insert
of `4` into the first view shadows it. -/
theorem chain_get_prefers_first_witness :
    chainGetRef (fun _ => none) (storeInsert (fun _ => none) 0 3) 0
      = some (3 : Nat)
    ∧ chainGetRef (storeInsert (fun _ => none) 0 4)
        (storeInsert (fun _ => none) 0 3) 0 = some (4 : Nat) := by
  exact ⟨(chain_get_prefers_first (fun _ => none) (fun _ => none) 0 3 4 rfl).2.1,
    (chain_get_prefers_first (fun _ => none) (fun _ => none) 0 3 4 rfl).2.2⟩

/-- Counterexample to C4 as stated: with the first view holding `0 ↦ 1`,
an `Insert{0, 2}` arriving from the second view is rebroadcast as
`Insert{0, 2}` — the first view is not consulted — not as `Insert{0, 1}`
as the claim requires; and with the second view holding `0 ↦ 7`, a
`Remove{0}` arriving from the first view is rebroadcast as `Insert{0, 7}`
rather than as-is. -/
theorem chain_watch_cex :
    aEx 0 = some 1
    ∧ chainWatchB aEx (Event.insert 0 2) = Event.insert 0 2
    ∧ chainWatchB aEx (Event.insert 0 2) ≠ Event.insert 0 1
    ∧ bEx 0 = some 7
    ∧ chainWatchA bEx (Event.remove 0) = Event.insert 0 7
    ∧ chainWatchA bEx (Event.remove 0) ≠ Event.remove 0 := by
  decide

/-- Claim C4 as amended: both chain watchers rebroadcast every `Insert`
unchanged (the other view is not consulted on inserts); a `Remove{k}`
from either side is rebroadcast as `Insert{k, w}` when the *other* view
currently holds `k ↦ w`, and as `Remove{k}` otherwise. -/
theorem chain_watch_translation {K : Type u} {V : Type v}
    (a b : K → Option V) (k : K) (v : V) :
    chainWatchA b (Event.insert k v) = Event.insert k v
    ∧ chainWatchB a (Event.insert k v) = Event.insert k v
    ∧ chainWatchA b (Event.remove k)
        = (match b k with
            | some w => Event.insert k w
            | none => Event.remove k)
    ∧ chainWatchB a (Event.remove k)
        = (match a k with
            | some w => Event.insert k w
            | none => Event.remove k) := by
  exact ⟨rfl, rfl, rfl, rfl⟩

/-- Claim C5: a synchronizer built by `Synchronizer::from(sources)` has,
immediately after construction, `received` equal to the (32-bit) sum of
the sources' `outgoing` counters and `outgoing` zero; consequently it is
sync at that moment exactly when every source synchronizer is itself
sync. -/
theorem synchro_from_bootstrap (source : List Synchro) :
    (synchroFrom source).received = incomingOf source
    ∧ (synchroFrom source).outgoing = 0
    ∧ (isSync (synchroFrom source) = true ↔ ∀ s ∈ source, isSync s = true) := by
  refine ⟨rfl, rfl, ?_⟩
  simp [synchroFrom, isSync, allSync_eq_all, List.all_eq_true]

theorem foldl_storeInsert_eq {K : Type u} {V : Type v} [DecidableEq K]
    (entries : List (K × V)) (s : K → Option V) (k : K) :
    (entries.foldl (fun acc e => storeInsert acc e.1 e.2) s) k
      = match lookupLast entries k with
        | some v => some v
        | none => s k := by
  induction entries generalizing s with
  | nil => rfl
  | cons e rest ih =>
    rw [List.foldl_cons, ih, lookupLast]
    cases lookupLast rest k with
    | some v => rfl
    | none =>
      by_cases h : e.1 = k
      · simp [storeInsert, h]
      · simp [storeInsert, h, Ne.symm h]

theorem outgoing_synchroReset (s : Synchro) :
    (synchroReset s).outgoing = s.outgoing := rfl

theorem incomingOf_map_synchroReset (src : List Synchro) :
    incomingOf (src.map synchroReset) = incomingOf src := by
  unfold incomingOf
  rw [List.map_map]
  simp [Function.comp_def, outgoing_synchroReset]

theorem isSync_synchroReset (s : Synchro) :
    isSync (synchroReset s) = allSync s.sources := by
  cases s with
  | mk src r o => simp [synchroReset, isSync, Synchro.sources]

/-- Claim C6 as amended: `Material::rebuild` leaves the inner store
holding exactly the entries iterated from the source (last write wins per
key), and resets the counters so that the material's synchronizer is sync
exactly when, for each of its source synchronizers, every synchronizer
*upstream of that source* is itself sync — in particular `wait()` returns
whenever the source is a base tree, but not necessarily for deeper
pipelines with a lagging upstream. -/
theorem material_rebuild_spec {K : Type u} {V : Type v} [DecidableEq K]
    (entries : List (K × V)) (k : K) (src : List Synchro) (r o : Nat) :
    storeOfEntries entries k = lookupLast entries k
    ∧ isSync (materialRebuildSync (Synchro.mk src r o))
        = src.all (fun s => allSync s.sources) := by
  constructor
  · unfold storeOfEntries
    rw [foldl_storeInsert_eq]
    cases lookupLast entries k <;> rfl
  · have hL : isSync (materialRebuildSync (Synchro.mk src r o))
        = (src.map synchroReset).all isSync := by
      simp [materialRebuildSync, isSync, Synchro.sources,
        incomingOf_map_synchroReset, allSync_eq_all]
    rw [hL, List.all_map]
    simp only [Function.comp_def, isSync_synchroReset]

/-- Counterexample to C6 as stated: rebuilding a material over a
second-level stage whose own upstream stage lags (five unseen writes at
the base) resets only the material's and its immediate source's counters,
so the material's synchronizer is still not sync — `wait()` would not
return, despite no write being in flight. -/
theorem material_rebuild_not_sync_cex :
    isSync (materialRebuildSync mSyncEx) = false := by
  decide

/-- Counterexample to C7 as stated: with a one-entry upstream and a
predicate accepting everything, the filter still reports itself empty,
although the claim requires `false` for every non-empty upstream. -/
theorem filter_is_empty_cex :
    filterIsEmpty [((0 : Nat), (1 : Nat))] (fun _ _ => true) = true
    ∧ ([((0 : Nat), (1 : Nat))] : List (Nat × Nat)) ≠ [] := by
  decide

/-- Claim C7 as amended: `Filter::is_empty` returns `true` for every
upstream state — when the upstream is non-empty it tests whether the
lower `size_hint` bound of the filtered iterator is zero, and the
`filter_map` adapter always reports lower bound zero, so the test is
vacuous. -/
theorem filter_is_empty_always_true {K : Type u} {V : Type v}
    (entries : List (K × V)) (p : K → V → Bool) :
    filterIsEmpty entries p = true := by
  unfold filterIsEmpty filterMapSizeHintLower
  split <;> rfl

/-- Claim C8, evaluated at the failing input: on the vector `[10, 20]`
with slot `0` vacated and slot `1` live holding `20`, `extend([30])`
returns position `0` for the consumed item, but routes the write through
`Vec::insert`, shifting the values right: afterwards slot `1` reads `10`
instead of the still-live `20`, and the value vector and occupancy bitmap
have diverging lengths (the condition the source reports as
`Desync in extend`).  A single `push(30)` on the same state writes slot
`0` in place and leaves slot `1` intact. -/
theorem stable_vec_extend_shifts :
    (svEx.extend [30]).2 = [0]
    ∧ (svEx.extend [30]).1.vec = [30, 10, 20]
    ∧ (svEx.extend [30]).1.used = [true, true]
    ∧ svEx.liveAt 1 = some 20
    ∧ (svEx.extend [30]).1.liveAt 1 = some 10
    ∧ (svEx.extend [30]).1.vec.length ≠ (svEx.extend [30]).1.used.length
    ∧ (svEx.push 30).1.liveAt 0 = some 30
    ∧ (svEx.push 30).1.liveAt 1 = some 20 := by
  decide

/-- Counterexample to C9 as stated: create a base synchronizer through
`Synchronizer::new` (which registers it), then build a stage synchronizer
over it through `Synchronizer::from`; the stage synchronizer is not in
the registry that `wait_all` iterates. -/
theorem synchro_from_unregistered_cex :
    (synchroFromReg (synchroNew []).1 [(synchroNew []).2]).2
      ∉ (synchroFromReg (synchroNew []).1 [(synchroNew []).2]).1 := by
  intro h
  simp only [synchroFromReg, synchroNew, synchroFrom, List.nil_append,
    List.mem_singleton] at h
  injection h with hs hr ho
  exact List.cons_ne_nil _ _ hs

/-- Claim C9 as amended: only synchronizers built by `Synchronizer::new`
(base trees) are pushed onto the process-global registry iterated by
`wait_all`; `Synchronizer::from` (derived stages) leaves the registry
unchanged. -/
theorem synchro_registry_membership (regs source : List Synchro) :
    (synchroNew regs).2 ∈ (synchroNew regs).1
    ∧ (synchroFromReg regs source).1 = regs := by
  constructor
  · simp [synchroNew]
  · rfl

theorem loadedGetGt_self {K : Type u} {V : Type v} [LinearOrder K]
    (entries : List (K × V)) (k : K) (v : V)
    (hs : entries.Pairwise (fun a b => a.1 < b.1))
    (hm : (k, v) ∈ entries) :
    loadedGetGt entries k = some (k, v) := by
  induction entries with
  | nil => cases hm
  | cons e rest ih =>
    rcases List.mem_cons.mp hm with he | hrest
    · subst he
      unfold loadedGetGt
      rw [List.find?_cons_of_pos _ (by simp)]
    · have hlt : e.1 < k := (List.pairwise_cons.mp hs).1 (k, v) hrest
      unfold loadedGetGt
      rw [List.find?_cons_of_neg _ (by simp [not_le.mpr hlt])]
      exact ih (List.pairwise_cons.mp hs).2 hrest

/-- Claim C10: on a key-sorted entry list holding `k`, the in-memory
`Loaded::get_gt_ref` returns the entry at `k` itself (its `range(key..)`
lower bound is inclusive), while `Loaded::get_lt_ref` only returns
strictly smaller keys and the persistent tree's `get_gt` only strictly
greater ones — so the two store kinds disagree at a present key. -/
theorem loaded_gt_inclusive_tree_gt_strict {K : Type u} {V : Type v}
    [LinearOrder K] (entries : List (K × V)) (k : K) (v : V)
    (hs : entries.Pairwise (fun a b => a.1 < b.1))
    (hm : (k, v) ∈ entries) :
    loadedGetGt entries k = some (k, v)
    ∧ (∀ e, treeGetGt entries k = some e → k < e.1)
    ∧ (∀ e, loadedGetLt entries k = some e → e.1 < k)
    ∧ treeGetGt entries k ≠ some (k, v) := by
  have hgt : ∀ e, treeGetGt entries k = some e → k < e.1 := by
    intro e he
    have := List.find?_some he
    simpa using this
  refine ⟨loadedGetGt_self entries k v hs hm, hgt, ?_, ?_⟩
  · intro e he
    have hmem : e ∈ entries.filter (fun e => decide (e.1 < k)) :=
      List.mem_of_mem_getLast? he
    simpa using (List.mem_filter.mp hmem).2
  · intro h
    exact lt_irrefl k (hgt (k, v) h)

/-- Witness for C10: on the sorted store `{1 ↦ 10, 2 ↦ 20}`, the
in-memory `get_gt` at `1` returns the entry at `1` itself while the
tree's strict `get_gt` does not. -/
theorem loaded_gt_inclusive_witness :
    loadedGetGt gtEntriesEx 1 = some (1, 10)
    ∧ treeGetGt gtEntriesEx 1 ≠ some (1, 10) := by
  have h := loaded_gt_inclusive_tree_gt_strict gtEntriesEx 1 10
    (by decide) (by decide)
  exact ⟨h.1, h.2.2.2⟩
